import Mathlib

/-!
Shallow embedding of slither/core/declarations/contract.py (the semantic
model layer of a static-analysis tool for smart contracts).

Contracts own member collections (functions, modifiers, state variables,
structures, events, enums) and an externally supplied, acyclic, linearized
inheritance order.  Member objects are modelled as records carrying the
fields the code reads (names, visibility, shadow flag, declaring contract);
object identity is modelled through the numeric ids the parser assigns
(Python's fallback of == to identity on Contract/Function objects).
Python dicts are modelled as insertion-ordered association lists with
overwrite-in-place update; Python None results are modelled as Option.
-/

namespace Slither

/-- Embeds a slithir operation of a CFG node, as far as
is_upgradeable_proxy inspects it: either a LowLevelCall instance carrying
its function_name, or any other kind of operation. -/
inductive Ir : Type where
  | lowLevelCall (function_name : String) : Ir
  | otherOp : Ir
deriving DecidableEq

/-- Embeds a control-flow node: its IR operations, whether node.type is
NodeType.ASSEMBLY, and the node.inline_asm text (none models a falsy
inline_asm). -/
structure Node where
  irs : List Ir
  is_assembly : Bool
  inline_asm : Option String
deriving DecidableEq

/-- Embeds a Function (or Modifier, which subclasses Function) object.
fid is the object's identity; is_function records whether the object is an
isinstance of Function (slithir call targets can also be solidity builtins,
which are not); internal_calls holds the fids of the function's direct
internal call targets (the local edge set supplied by the function-level
analysis); nodes embeds f.all_nodes(). -/
structure Func where
  fid : Nat
  name : String
  full_name : String
  canonical_name : String
  visibility : String
  is_shadowed : Bool
  is_constructor : Bool
  is_fallback : Bool
  is_function : Bool
  contract_declarer : Nat
  internal_calls : List Nat
  nodes : List Node
deriving DecidableEq

/-- Embeds a StateVariable object with the fields contract.py reads. -/
structure Var where
  name : String
  full_name : String
  canonical_name : String
  visibility : String
  contract : Nat
deriving DecidableEq

/-- Embeds a Structure / Event / Enum member object (they share the shape
contract.py reads: names and the back-reference to the contract that
contributed them, the latter compared by identity, hence by id). -/
structure Member where
  name : String
  full_name : String
  canonical_name : String
  contract : Nat
deriving DecidableEq

/-- Embeds a Contract object.  inheritance is the externally supplied c3
linearization, first element = first father to be executed (most-base
first); it is acyclic, so ancestors nest structurally.  The member
collections embed the values of the corresponding per-name dicts in their
insertion order. -/
inductive Contract : Type where
  | mk (id : Nat) (name : String) (inheritance : List Contract)
      (functions : List Func) (modifiers : List Func)
      (state_variables : List Var) (structures : List Member)
      (events : List Member) (enums : List Member) : Contract

/-- Contract._id -/
def Contract.id : Contract → Nat
  | .mk i _ _ _ _ _ _ _ _ => i

/-- Contract._name -/
def Contract.name : Contract → String
  | .mk _ n _ _ _ _ _ _ _ => n

/-- Contract.inheritance: list(self._inheritance). -/
def Contract.inheritance : Contract → List Contract
  | .mk _ _ inh _ _ _ _ _ _ => inh

/-- Contract.functions: list(self._functions.values()). -/
def Contract.functions : Contract → List Func
  | .mk _ _ _ fs _ _ _ _ _ => fs

/-- Contract.modifiers: list(self._modifiers.values()). -/
def Contract.modifiers : Contract → List Func
  | .mk _ _ _ _ ms _ _ _ _ => ms

/-- Contract.state_variables: list(self._variables.values()). -/
def Contract.state_variables : Contract → List Var
  | .mk _ _ _ _ _ vs _ _ _ => vs

/-- Contract.structures: list(self._structures.values()). -/
def Contract.structures : Contract → List Member
  | .mk _ _ _ _ _ _ ss _ _ => ss

/-- Contract.events: list(self._events.values()). -/
def Contract.events : Contract → List Member
  | .mk _ _ _ _ _ _ _ es _ => es

/-- Contract.enums: list(self._enums.values()). -/
def Contract.enums : Contract → List Member
  | .mk _ _ _ _ _ _ _ _ es => es

/-- Contract.inheritance_reverse: reversed(self._inheritance). -/
def Contract.inheritance_reverse (c : Contract) : List Contract :=
  c.inheritance.reverse

/-- Python "visibility in ['public', 'external']". -/
def isPublicOrExternal (v : String) : Bool :=
  v == "public" || v == "external"

/-- Contract.functions_entry_points:
[f for f in self.functions if f.visibility in ['public', 'external'] and not f.is_shadowed]. -/
def Contract.functions_entry_points (c : Contract) : List Func :=
  c.functions.filter (fun f => isPublicOrExternal f.visibility && !f.is_shadowed)

/-- Contract.functions_signatures: full names of the public/external state
variables, plus the set of full names of the public/external functions,
deduplicated by list(set(..)).  The memoization in the source caches this
value; the embedding is the computed value. -/
def Contract.functions_signatures (c : Contract) : List String :=
  (((c.state_variables.filter (fun v => isPublicOrExternal v.visibility)).map Var.full_name)
    ++ ((c.functions.filter (fun f => isPublicOrExternal f.visibility)).map Func.full_name).dedup).dedup

/-- Modelled from the spec: the fixed ERC-20 reference signature set
(slither.utils.erc.ERC20_signatures, whose defining module is not part of
the sources here); the spec lists exactly these six signatures. -/
def ERC20_signatures : List String :=
  ["transfer(address,uint256)", "transferFrom(address,address,uint256)",
   "approve(address,uint256)", "totalSupply()", "balanceOf(address)",
   "allowance(address,address)"]

/-- Contract.is_erc20: all((s in full_names for s in ERC20_signatures)). -/
def Contract.is_erc20 (c : Contract) : Bool :=
  ERC20_signatures.all (fun s => c.functions_signatures.contains s)

/-- Contract.is_possible_erc20: one of the three marker signatures is in
functions_signatures. -/
def Contract.is_possible_erc20 (c : Contract) : Bool :=
  c.functions_signatures.contains "transfer(address,uint256)" ||
  c.functions_signatures.contains "transferFrom(address,address,uint256)" ||
  c.functions_signatures.contains "approve(address,uint256)"

/-- Contract.get_function_from_signature:
next((f for f in self.functions if f.full_name == function_signature and not f.is_shadowed), None). -/
def Contract.get_function_from_signature (c : Contract) (function_signature : String) :
    Option Func :=
  c.functions.find? (fun f => f.full_name == function_signature && !f.is_shadowed)

/-- Contract.get_modifier_from_signature. -/
def Contract.get_modifier_from_signature (c : Contract) (modifier_signature : String) :
    Option Func :=
  c.modifiers.find? (fun m => m.full_name == modifier_signature && !m.is_shadowed)

/-- Contract.get_function_from_canonical_name. -/
def Contract.get_function_from_canonical_name (c : Contract) (canonical_name : String) :
    Option Func :=
  c.functions.find? (fun f => f.canonical_name == canonical_name)

/-- Contract.get_modifier_from_canonical_name. -/
def Contract.get_modifier_from_canonical_name (c : Contract) (canonical_name : String) :
    Option Func :=
  c.modifiers.find? (fun m => m.canonical_name == canonical_name)

/-- Contract.get_state_variable_from_name. -/
def Contract.get_state_variable_from_name (c : Contract) (variable_name : String) :
    Option Var :=
  c.state_variables.find? (fun v => v.name == variable_name)

/-- Contract.get_state_variable_from_canonical_name: the source compares
v.name (not v.canonical_name) against the argument. -/
def Contract.get_state_variable_from_canonical_name (c : Contract) (canonical_name : String) :
    Option Var :=
  c.state_variables.find? (fun v => v.name == canonical_name)

/-- Contract.get_structure_from_name. -/
def Contract.get_structure_from_name (c : Contract) (structure_name : String) :
    Option Member :=
  c.structures.find? (fun st => st.name == structure_name)

/-- Contract.get_structure_from_canonical_name. -/
def Contract.get_structure_from_canonical_name (c : Contract) (structure_name : String) :
    Option Member :=
  c.structures.find? (fun st => st.canonical_name == structure_name)

/-- Contract.get_event_from_signature. -/
def Contract.get_event_from_signature (c : Contract) (event_signature : String) :
    Option Member :=
  c.events.find? (fun e => e.full_name == event_signature)

/-- Contract.get_event_from_canonical_name. -/
def Contract.get_event_from_canonical_name (c : Contract) (event_canonical_name : String) :
    Option Member :=
  c.events.find? (fun e => e.canonical_name == event_canonical_name)

/-- Contract.get_enum_from_name. -/
def Contract.get_enum_from_name (c : Contract) (enum_name : String) : Option Member :=
  c.enums.find? (fun e => e.name == enum_name)

/-- Contract.get_enum_from_canonical_name. -/
def Contract.get_enum_from_canonical_name (c : Contract) (enum_name : String) : Option Member :=
  c.enums.find? (fun e => e.canonical_name == enum_name)

/-- Contract.constructors_declared:
next((func for func in self.functions if func.is_constructor and func.contract_declarer == self), None).
The == between Contract objects falls back to identity (Contract.__eq__
returns NotImplemented for non-str operands), modelled by comparing ids. -/
def Contract.constructors_declared (c : Contract) : Option Func :=
  c.functions.find? (fun func => func.is_constructor && func.contract_declarer == c.id)

/-- Contract.constructor: the contract's own declared constructor when it
exists, otherwise the first declared constructor found scanning
self.inheritance in order (first element = first father to be executed),
None when none exists. -/
def Contract.constructor (c : Contract) : Option Func :=
  match c.constructors_declared with
  | some cst => some cst
  | none => c.inheritance.findSome? Contract.constructors_declared

/-- Checks one ir of a node the way is_upgradeable_proxy does:
isinstance(ir, LowLevelCall) and ir.function_name == 'delegatecall'. -/
def irIsDelegatecall : Ir → Bool
  | .lowLevelCall fn => fn == "delegatecall"
  | .otherOp => false

/-- Python "'delegatecall' in inline_asm": substring containment. -/
def hasSubstr (hay needle : String) : Bool :=
  decide (needle.data <:+: hay.data)

/-- Scan of one CFG node by is_upgradeable_proxy: a LowLevelCall ir named
delegatecall, or an assembly node whose truthy inline_asm text contains
'delegatecall'. -/
def Node.scanDelegatecall (n : Node) : Bool :=
  n.irs.any irIsDelegatecall ||
    (n.is_assembly &&
      match n.inline_asm with
      | some t => hasSubstr t "delegatecall"
      | none => false)

/-- Contract.is_upgradeable_proxy: scans every fallback function's nodes
and returns True on the first delegatecall evidence, False otherwise.  The
source memoizes the result in _is_upgradeable_proxy (None sentinel); the
embedding is the value computed on first access. -/
def Contract.is_upgradeable_proxy (c : Contract) : Bool :=
  c.functions.any (fun f => f.is_fallback && f.nodes.any Node.scanDelegatecall)

/-- Python dict assignment d[k] = v on an insertion-ordered dict: replace
the value in place when the key is present, append otherwise. -/
def dinsert {α : Type} (d : List (String × α)) (k : String) (v : α) : List (String × α) :=
  if d.any (fun p => p.1 == k) then
    d.map (fun p => if p.1 == k then (k, v) else p)
  else d ++ [(k, v)]

/-- Python dict lookup d.get(k): first entry with the key. -/
def dlookup {α : Type} (d : List (String × α)) (k : String) : Option α :=
  (d.find? (fun p => p.1 == k)).map Prod.snd

/-- Python dict comprehension keyed by full_name over member objects:
later items with the same key overwrite earlier ones. -/
def dictComp (l : List Member) : List (String × Member) :=
  l.foldl (fun acc v => dinsert acc v.full_name v) []

/-- Python d.update(entries): assign each of the other dict's entries in
order. -/
def pyUpdate {α : Type} (d entries : List (String × α)) : List (String × α) :=
  entries.foldl (fun acc kv => dinsert acc kv.1 kv.2) d

/-- Contract.available_elements_from_inheritances(elements, getter_available).
Walks inheritance_reverse; for each father, builds the dict of the
father's available elements keyed by full_name, skipping elements whose
contract was already visited (identity membership in contracts_visited,
modelled by ids), appends the father to contracts_visited, and dict-updates
inherited_elements.  Finally re-keys through elements[canonical_name]
(Python would raise KeyError on a missing canonical name; the embedding
carries the lookup as an Option value). -/
def Contract.available_elements_from_inheritances (c : Contract)
    (elements : List (String × Member)) (getter_available : Contract → List Member) :
    List (String × Option Member) :=
  let step := fun (st : List (String × Member) × List Nat) (father : Contract) =>
    let functions := dictComp ((getter_available father).filter
      (fun v => !(st.2.contains v.contract)))
    (pyUpdate st.1 functions, st.2 ++ [father.id])
  let inherited_elements := (c.inheritance_reverse.foldl step ([], [])).1
  inherited_elements.foldl
    (fun acc kv => dinsert acc kv.2.full_name (dlookup elements kv.2.canonical_name)) []

/-- Arena of the Function/Modifier objects of an analysis run, keyed by
fid; internal-call references resolve through it.  This stands for the
heap of function objects the contract model points into. -/
structure Model where
  funcs : List Func

/-- Resolves a fid to its function object, when it exists. -/
def Model.lookupF (M : Model) (i : Nat) : Option Func :=
  M.funcs.find? (fun g => g.fid == i)

/-- Direct internal-call successors of the function with fid i. -/
def Model.succsList (M : Model) (i : Nat) : List Nat :=
  match M.lookupF i with
  | some g => g.internal_calls
  | none => []

/-- One step of the internal-call edge relation over a frontier. -/
def Model.stepList (M : Model) (s : List Nat) : List Nat :=
  s.flatMap (fun i => M.succsList i)

/-- Every fid ever mentioned as an internal-call target; successors always
stay inside it, which bounds the closure iteration. -/
def Model.universeList (M : Model) : List Nat :=
  M.funcs.flatMap (fun g => g.internal_calls)

/-- Fuel-driven saturation of a fid set under the internal-call edges:
stop as soon as one step adds nothing new. -/
def Model.closureAux (M : Model) : Nat → List Nat → List Nat
  | 0, s => s
  | n + 1, s =>
    if (M.stepList s).all (fun j => s.contains j) then s
    else M.closureAux n (s ++ M.stepList s)

/-- Transitive closure of a fid set under the internal-call edges; the
fuel bound suffices because each non-final round strictly grows the set
inside the finite universe. -/
def Model.closure (M : Model) (s : List Nat) : List Nat :=
  M.closureAux ((M.universeList ++ s).dedup.length) s

/-- Modelled from the spec: Function.all_internal_calls (the Function
class is not among the sources here).  Per the closure-engine section it
is the function's own local internal calls plus the transitive closure of
internal calls reachable from those, i.e. every function object reachable
through one or more internal-call edges starting from f's local edge set. -/
def Model.all_internal_calls (M : Model) (f : Func) : List Func :=
  M.funcs.filter (fun g => (M.closure f.internal_calls).contains g.fid)

/-- First line of Contract.all_functions_called:
[f for f in self.functions + self.modifiers if not f.is_shadowed]. -/
def Contract.available_functions_and_modifiers (c : Contract) : List Func :=
  (c.functions ++ c.modifiers).filter (fun f => !f.is_shadowed)

/-- Contract.all_functions_called: the non-shadowed functions/modifiers,
each one's all_internal_calls, and every ancestor's resolved constructor,
deduplicated as sets and finally filtered by isinstance(c, Function). -/
def Contract.all_functions_called (M : Model) (c : Contract) : List Func :=
  let avail := c.available_functions_and_modifiers
  let all_calls := ((avail.map (fun f => M.all_internal_calls f)) ++ [avail]).flatten.dedup
  let all_constructors := (c.inheritance.filterMap Contract.constructor).dedup
  ((all_calls ++ all_constructors).dedup).filter (fun f => f.is_function)

/-- Internal-call edge relation on fids: j is a direct internal-call
target of the function with fid i. -/
def Model.rel (M : Model) (i j : Nat) : Prop :=
  j ∈ M.succsList i

/-- Embeds the operand of Contract.__eq__ / Contract.__neq__: Python
dispatches on isinstance(other, str). -/
inductive PyOperand : Type where
  | strVal (s : String) : PyOperand
  | nonStr : PyOperand
deriving DecidableEq

/-- Contract.__eq__: other == self.name when other is a str, otherwise
NotImplemented (modelled as none). -/
def Contract.eqPy (c : Contract) : PyOperand → Option Bool
  | .strVal s => some (s == c.name)
  | .nonStr => none

/-- Contract.__neq__ as written in the source: other != self.name when
other is a str, otherwise NotImplemented (modelled as none). -/
def Contract.neqPy (c : Contract) : PyOperand → Option Bool
  | .strVal s => some (s != c.name)
  | .nonStr => none

/-- C8: functions_entry_points is a subset of functions, and a function is
an entry point exactly when its visibility is public or external and it is
not shadowed. -/
theorem c8_entry_points_spec (c : Contract) :
    (∀ f ∈ c.functions_entry_points, f ∈ c.functions) ∧
    (∀ f, f ∈ c.functions_entry_points ↔
      f ∈ c.functions ∧ (f.visibility = "public" ∨ f.visibility = "external") ∧
        f.is_shadowed = false) := by
  constructor
  · intro f hf
    exact (List.mem_filter.mp hf).1
  · intro f
    simp [Contract.functions_entry_points, List.mem_filter, isPublicOrExternal,
      Bool.or_eq_true, Bool.and_eq_true, Bool.not_eq_true', and_assoc]

/-- C9: get_state_variable_from_canonical_name compares the argument
against each state variable's plain name, exactly as
get_state_variable_from_name does, so the two lookups agree on every
contract and every string. -/
theorem c9_state_variable_lookup_equiv (c : Contract) (s : String) :
    c.get_state_variable_from_canonical_name s = c.get_state_variable_from_name s := rfl

/-- C6: for every contract and every string, each member lookup returns
none exactly when no matching member exists; the lookups are total
functions on the embedded data, so absence is an explicit result, never a
raised failure. -/
theorem c6_lookups_none_iff_no_match (c : Contract) (s : String) :
    (c.get_function_from_signature s = none ↔
      ∀ f ∈ c.functions, f.full_name = s → f.is_shadowed = true) ∧
    (c.get_modifier_from_signature s = none ↔
      ∀ m ∈ c.modifiers, m.full_name = s → m.is_shadowed = true) ∧
    (c.get_function_from_canonical_name s = none ↔
      ∀ f ∈ c.functions, ¬f.canonical_name = s) ∧
    (c.get_modifier_from_canonical_name s = none ↔
      ∀ m ∈ c.modifiers, ¬m.canonical_name = s) ∧
    (c.get_state_variable_from_name s = none ↔
      ∀ v ∈ c.state_variables, ¬v.name = s) ∧
    (c.get_state_variable_from_canonical_name s = none ↔
      ∀ v ∈ c.state_variables, ¬v.name = s) ∧
    (c.get_structure_from_name s = none ↔ ∀ st ∈ c.structures, ¬st.name = s) ∧
    (c.get_structure_from_canonical_name s = none ↔
      ∀ st ∈ c.structures, ¬st.canonical_name = s) ∧
    (c.get_event_from_signature s = none ↔ ∀ e ∈ c.events, ¬e.full_name = s) ∧
    (c.get_event_from_canonical_name s = none ↔
      ∀ e ∈ c.events, ¬e.canonical_name = s) ∧
    (c.get_enum_from_name s = none ↔ ∀ e ∈ c.enums, ¬e.name = s) ∧
    (c.get_enum_from_canonical_name s = none ↔
      ∀ e ∈ c.enums, ¬e.canonical_name = s) := by
  refine ⟨?_, ?_, ?_, ?_, ?_, ?_, ?_, ?_, ?_, ?_, ?_, ?_⟩ <;>
    simp [Contract.get_function_from_signature, Contract.get_modifier_from_signature,
      Contract.get_function_from_canonical_name, Contract.get_modifier_from_canonical_name,
      Contract.get_state_variable_from_name, Contract.get_state_variable_from_canonical_name,
      Contract.get_structure_from_name, Contract.get_structure_from_canonical_name,
      Contract.get_event_from_signature, Contract.get_event_from_canonical_name,
      Contract.get_enum_from_name, Contract.get_enum_from_canonical_name,
      List.find?_eq_none, Bool.and_eq_true, Bool.not_eq_true']

/-- C10: comparing a Contract with a string via __eq__ is true exactly
when the string equals the contract's name, the written __neq__ body is
true exactly when it differs, non-string operands are not handled
(NotImplemented, modelled as none), and two contracts sharing a name give
the same answer against the same string even when they are distinct
objects. -/
theorem c10_eq_str_spec (c : Contract) (s : String) :
    (c.eqPy (PyOperand.strVal s) = some true ↔ s = c.name) ∧
    (c.neqPy (PyOperand.strVal s) = some true ↔ s ≠ c.name) ∧
    c.eqPy PyOperand.nonStr = none ∧
    c.neqPy PyOperand.nonStr = none ∧
    (∀ c1 c2 : Contract, c1.id ≠ c2.id → c1.name = c2.name →
      (c1.eqPy (PyOperand.strVal s) = some true ↔
        c2.eqPy (PyOperand.strVal s) = some true)) := by
  refine ⟨?_, ?_, rfl, rfl, ?_⟩
  · simp [Contract.eqPy]
  · simp [Contract.neqPy]
  · intro c1 c2 _ hname
    simp [Contract.eqPy, hname]

/-- C5: is_erc20 is true exactly when every signature of the fixed ERC-20
reference set is among the contract's aggregated public/external
signatures; dropping any reference signature from that set forces false;
is_possible_erc20 is true exactly when one of the three marker signatures
is present. -/
theorem c5_is_erc20_spec :
    (∀ c : Contract, c.is_erc20 = true ↔
      ∀ s ∈ ERC20_signatures, s ∈ c.functions_signatures) ∧
    (∀ c : Contract, ∀ s ∈ ERC20_signatures,
      s ∉ c.functions_signatures → c.is_erc20 = false) ∧
    (∀ c : Contract, c.is_possible_erc20 = true ↔
      ("transfer(address,uint256)" ∈ c.functions_signatures ∨
       "transferFrom(address,address,uint256)" ∈ c.functions_signatures ∨
       "approve(address,uint256)" ∈ c.functions_signatures)) := by
  refine ⟨?_, ?_, ?_⟩
  · intro c
    simp [Contract.is_erc20, List.all_eq_true]
  · intro c s hs habs
    rw [Bool.eq_false_iff]
    intro htrue
    rw [Contract.is_erc20, List.all_eq_true] at htrue
    exact habs (by simpa using htrue s hs)
  · intro c
    simp [Contract.is_possible_erc20, or_assoc]

/-- Helper for C4: the per-ir test matches exactly the LowLevelCall named
delegatecall. -/
theorem irIsDelegatecall_iff (ir : Ir) :
    irIsDelegatecall ir = true ↔ ir = Ir.lowLevelCall "delegatecall" := by
  cases ir <;> simp [irIsDelegatecall]

/-- Helper for C4: the per-node scan finds exactly a delegatecall
LowLevelCall among the node's irs, or an assembly node whose inline text
contains the delegatecall mnemonic. -/
theorem scanDelegatecall_iff (n : Node) :
    n.scanDelegatecall = true ↔
      ((∃ ir ∈ n.irs, ir = Ir.lowLevelCall "delegatecall") ∨
       (n.is_assembly = true ∧ ∃ t, n.inline_asm = some t ∧
         ("delegatecall".data <:+: t.data))) := by
  cases n with
  | mk irs isasm asm =>
    cases asm <;>
      simp [Node.scanDelegatecall, hasSubstr, List.any_eq_true, irIsDelegatecall_iff]

/-- C4: is_upgradeable_proxy is true exactly when some fallback function
has a node whose irs contain a LowLevelCall named delegatecall or an
assembly node whose inline text contains the delegatecall mnemonic, and a
contract without any fallback function is never flagged. -/
theorem c4_is_upgradeable_proxy_spec :
    (∀ c : Contract, c.is_upgradeable_proxy = true ↔
      ∃ f ∈ c.functions, f.is_fallback = true ∧ ∃ n ∈ f.nodes,
        ((∃ ir ∈ n.irs, ir = Ir.lowLevelCall "delegatecall") ∨
         (n.is_assembly = true ∧ ∃ t, n.inline_asm = some t ∧
           ("delegatecall".data <:+: t.data)))) ∧
    (∀ c : Contract, (∀ f ∈ c.functions, f.is_fallback = false) →
      c.is_upgradeable_proxy = false) := by
  have hmain : ∀ c : Contract, c.is_upgradeable_proxy = true ↔
      ∃ f ∈ c.functions, f.is_fallback = true ∧ ∃ n ∈ f.nodes,
        ((∃ ir ∈ n.irs, ir = Ir.lowLevelCall "delegatecall") ∨
         (n.is_assembly = true ∧ ∃ t, n.inline_asm = some t ∧
           ("delegatecall".data <:+: t.data))) := by
    intro c
    simp [Contract.is_upgradeable_proxy, List.any_eq_true, scanDelegatecall_iff]
  refine ⟨hmain, ?_⟩
  intro c hnofb
  rw [Bool.eq_false_iff]
  intro htrue
  obtain ⟨f, hf, hfb, -⟩ := (hmain c).mp htrue
  rw [hnofb f hf] at hfb
  cases hfb

/-- Helper: findSome? returns some b exactly when the list splits at a
first element on which the function fires, every earlier element giving
none. -/
theorem findSome?_eq_some_iff {α β : Type} (f : α → Option β) (l : List α) (b : β) :
    l.findSome? f = some b ↔
      ∃ l1 a l2, l = l1 ++ a :: l2 ∧ f a = some b ∧ ∀ x ∈ l1, f x = none := by
  induction l with
  | nil =>
    simp only [List.findSome?_nil]
    constructor
    · intro h; cases h
    · rintro ⟨l1, a, l2, heq, -, -⟩
      exact absurd heq.symm (List.append_ne_nil_of_right_ne_nil l1 (List.cons_ne_nil a l2))
  | cons x xs ih =>
    rw [List.findSome?_cons]
    cases hx : f x with
    | some b' =>
      constructor
      · intro h
        refine ⟨[], x, xs, rfl, ?_, by simp⟩
        rw [hx]; exact h
      · rintro ⟨l1, a, l2, heq, hfa, hnone⟩
        cases l1 with
        | nil =>
          obtain ⟨rfl, -⟩ := by simpa using heq
          rw [hx] at hfa; exact hfa
        | cons y l1t =>
          obtain ⟨rfl, -⟩ := by simpa using heq
          have := hnone x (by simp)
          rw [hx] at this; cases this
    | none =>
      rw [ih]
      constructor
      · rintro ⟨l1, a, l2, heq, hfa, hnone⟩
        refine ⟨x :: l1, a, l2, by rw [heq]; rfl, hfa, ?_⟩
        intro z hz
        rcases List.mem_cons.mp hz with rfl | hz'
        · exact hx
        · exact hnone z hz'
      · rintro ⟨l1, a, l2, heq, hfa, hnone⟩
        cases l1 with
        | nil =>
          obtain ⟨rfl, rfl⟩ := by simpa using heq
          rw [hx] at hfa; cases hfa
        | cons y l1t =>
          obtain ⟨rfl, htail⟩ := by simpa using heq
          exact ⟨l1t, a, l2, htail, hfa, fun z hz => hnone z (List.mem_cons_of_mem _ hz)⟩

/-- C3: a contract's own declared constructor is returned when it exists;
otherwise the first declared constructor found scanning the linearized
ancestor sequence in execution order (most-base first) is returned; and
the result is none exactly when no constructor exists anywhere in the
hierarchy, absence being an ordinary result. -/
theorem c3_constructor_resolution (c : Contract) :
    (∀ f, c.constructors_declared = some f → c.constructor = some f) ∧
    (c.constructors_declared = none → ∀ f,
      (c.constructor = some f ↔
        ∃ l1 a l2, c.inheritance = l1 ++ a :: l2 ∧ a.constructors_declared = some f ∧
          ∀ b ∈ l1, b.constructors_declared = none)) ∧
    (c.constructor = none ↔
      (c.constructors_declared = none ∧
        ∀ a ∈ c.inheritance, a.constructors_declared = none)) := by
  refine ⟨?_, ?_, ?_⟩
  · intro f hf
    rw [Contract.constructor, hf]
  · intro h f
    rw [Contract.constructor, h]
    exact findSome?_eq_some_iff Contract.constructors_declared c.inheritance f
  · rw [Contract.constructor]
    cases h : c.constructors_declared with
    | some cst => simp [h]
    | none => simp [h, List.findSome?_eq_none_iff]

/-- Concrete constructor function of contract 1 for the C3 witness. -/
def ctorA : Func :=
  ⟨10, "constructor", "constructor()", "A.constructor()", "public",
    false, true, false, true, 1, [], []⟩

/-- Concrete base contract declaring a constructor. -/
def contractA : Contract := .mk 1 "A" [] [ctorA] [] [] [] [] []

/-- Concrete derived contract without an own constructor; its function
view contains the inherited constructor, whose declarer is contract 1. -/
def contractB : Contract := .mk 2 "B" [contractA] [ctorA] [] [] [] [] []

/-- Concrete contract with no constructor anywhere in its hierarchy. -/
def contractN : Contract := .mk 3 "N" [] [] [] [] [] [] []

/-- Witness for C3: the derived contract resolves to the base's declared
constructor, and the constructor-free contract resolves to none. -/
theorem c3_witness :
    Contract.constructor contractB = some ctorA ∧
    Contract.constructor contractN = none := by
  constructor
  · exact ((c3_constructor_resolution contractB).2.1 (by decide) ctorA).mpr
      ⟨[], contractA, [], rfl, by decide, by simp⟩
  · exact (c3_constructor_resolution contractN).2.2.mpr
      ⟨rfl, by simp [contractN, Contract.inheritance]⟩

/-- Helper: find? returns the unique element satisfying the predicate. -/
theorem find?_eq_some_of_unique {α : Type} (p : α → Bool) (l : List α) (a : α)
    (ha : a ∈ l) (hpa : p a = true) (huniq : ∀ b ∈ l, p b = true → b = a) :
    l.find? p = some a := by
  induction l with
  | nil => cases ha
  | cons x xs ih =>
    by_cases hx : p x = true
    · have hxa : x = a := huniq x (List.mem_cons_self x xs) hx
      subst hxa
      exact List.find?_cons_of_pos xs hx
    · rw [List.find?_cons_of_neg xs (by simpa using hx)]
      refine ih ?_ (fun b hb hpb => huniq b (List.mem_cons_of_mem x hb) hpb)
      rcases List.mem_cons.mp ha with rfl | ha'
      · exact absurd hpa hx
      · exact ha'

/-- Two-ancestor contract of the C1 scenario: inheritance lists the
farther ancestor (with id ib, owning a member with full name s and
canonical name cb) first, i.e. first-to-execute, and the nearer ancestor
(id ia, canonical name ca) last; the getter hands out each ancestor's
structures view.  fs is the querying contract's own function dict. -/
def twoAncestorContract (s na nb ca cb : String) (ia ib ic : Nat) (fs : List Func) :
    Contract :=
  .mk ic "C"
    [.mk ib "B" [] [] [] [] [⟨nb, s, cb, ib⟩] [] [],
     .mk ia "A" [] [] [] [] [⟨na, s, ca, ia⟩] [] []]
    fs [] [] [] [] []

/-- C1 amended: get_function_from_signature returns the unique
non-shadowed matching declaration in the contract's function view; but in
available_elements_from_inheritances, because the walk is nearest-first
and each round dict-updates the accumulated mapping, a farther ancestor's
same-named member overwrites the nearer ancestor's, so the colliding name
maps to the member contributed while processing the farther ancestor. -/
theorem c1_amended_resolution (s na nb ca cb : String) (ia ib ic : Nat)
    (elements : List (String × Member)) (fs : List Func) (fa : Func)
    (h : ia ≠ ib) (hmem : fa ∈ fs) (hname : fa.full_name = s)
    (hsh : fa.is_shadowed = false)
    (huniq : ∀ g ∈ fs, g.full_name = s → g.is_shadowed = false → g = fa) :
    (twoAncestorContract s na nb ca cb ia ib ic fs).get_function_from_signature s
      = some fa ∧
    (twoAncestorContract s na nb ca cb ia ib ic fs).available_elements_from_inheritances
        elements Contract.structures
      = [(s, dlookup elements cb)] := by
  constructor
  · rw [Contract.get_function_from_signature]
    refine find?_eq_some_of_unique _ _ fa hmem ?_ ?_
    · simp [hname, hsh]
    · intro b hb hpb
      simp only [Bool.and_eq_true, beq_iff_eq, Bool.not_eq_true'] at hpb
      exact huniq b hb hpb.1 hpb.2
  · have hba : (ib == ia) = false := beq_eq_false_iff_ne.mpr (Ne.symm h)
    have hba2 : decide (ib = ia) = false := decide_eq_false (Ne.symm h)
    simp [twoAncestorContract, Contract.available_elements_from_inheritances,
      Contract.inheritance_reverse, Contract.inheritance, Contract.structures,
      Contract.id, dictComp, pyUpdate, dinsert, List.contains, hba, hba2]

/-- Nearer ancestor's declaration of f(uint256) in the C1 counterexample. -/
def memberFA : Member := ⟨"f", "f(uint256)", "A.f(uint256)", 1⟩

/-- Farther ancestor's declaration of f(uint256) in the C1 counterexample. -/
def memberFB : Member := ⟨"f", "f(uint256)", "B.f(uint256)", 2⟩

/-- Canonical-name-keyed elements dict of the C1 counterexample. -/
def elementsEx : List (String × Member) :=
  [("A.f(uint256)", memberFA), ("B.f(uint256)", memberFB)]

/-- Querying contract of the C1 counterexample: inherits the farther
ancestor B (id 2, first to execute) and the nearer ancestor A (id 1), both
contributing a member with full name f(uint256). -/
def contractCx : Contract :=
  .mk 0 "C"
    [.mk 2 "B" [] [] [] [] [memberFB] [] [],
     .mk 1 "A" [] [] [] [] [memberFA] [] []]
    [] [] [] [] [] []

/-- Counterexample for C1: with a nearer ancestor A and a farther ancestor
B both contributing f(uint256), the mapping resolves the name to B's
member, not to A's, so the nearer ancestor's entry is overwritten by the
farther ancestor's, contradicting the claim. -/
theorem c1_counterexample :
    dlookup (contractCx.available_elements_from_inheritances elementsEx
      Contract.structures) "f(uint256)" = some (some memberFB) ∧
    ¬ dlookup (contractCx.available_elements_from_inheritances elementsEx
      Contract.structures) "f(uint256)" = some (some memberFA) ∧
    memberFA ≠ memberFB := by decide

/-- Non-shadowed nearer declaration of f(uint256) in the C1 witness. -/
def funcFA : Func :=
  ⟨21, "f", "f(uint256)", "A.f(uint256)", "public", false, false, false, true, 1, [], []⟩

/-- Shadowed farther declaration of f(uint256) in the C1 witness. -/
def funcFBsh : Func :=
  ⟨22, "f", "f(uint256)", "B.f(uint256)", "public", true, false, false, true, 2, [], []⟩

/-- Witness for the amended C1 at concrete inputs. -/
theorem c1_witness :
    (twoAncestorContract "f(uint256)" "f" "f" "A.f(uint256)" "B.f(uint256)" 1 2 0
        [funcFBsh, funcFA]).get_function_from_signature "f(uint256)" = some funcFA ∧
    (twoAncestorContract "f(uint256)" "f" "f" "A.f(uint256)" "B.f(uint256)" 1 2 0
        [funcFBsh, funcFA]).available_elements_from_inheritances elementsEx
        Contract.structures
      = [("f(uint256)", dlookup elementsEx "B.f(uint256)")] :=
  c1_amended_resolution "f(uint256)" "f" "f" "A.f(uint256)" "B.f(uint256)" 1 2 0
    elementsEx [funcFBsh, funcFA] funcFA (by decide) (by decide) rfl rfl (by decide)

/-- Diamond-shared base of the C7 scenario: contract D (id idD) owns a
member with full name s and canonical name cm. -/
def diamondBase (nm s cm : String) (idD : Nat) : Contract :=
  .mk idD "D" [] [] [] [] [⟨nm, s, cm, idD⟩] [] []

/-- Querying contract of the C7 diamond: ancestors A and B both inherit
the shared base D and expose D's member in their visible view; the
linearization of C is D, B, A in execution order, so the reverse walk
processes A, then B, then D, and D's member is offered along every path. -/
def diamondContract (nm s cm : String) (idA idB idC idD : Nat) : Contract :=
  .mk idC "C"
    [diamondBase nm s cm idD,
     .mk idB "B" [diamondBase nm s cm idD] [] [] [] [⟨nm, s, cm, idD⟩] [] [],
     .mk idA "A" [diamondBase nm s cm idD] [] [] [] [⟨nm, s, cm, idD⟩] [] []]
    [] [] [] [] [] []

/-- C7: in the diamond, the name-keyed mapping contains the shared base's
member exactly once, no matter that three processed ancestors all offer
it: the result is the single-entry dict for that member. -/
theorem c7_diamond_once (nm s cm : String) (idA idB idC idD : Nat)
    (elements : List (String × Member)) (hDA : idD ≠ idA) (hDB : idD ≠ idB) :
    ((diamondContract nm s cm idA idB idC idD).available_elements_from_inheritances
        elements Contract.structures
      = [(s, dlookup elements cm)]) ∧
    (((diamondContract nm s cm idA idB idC idD).available_elements_from_inheritances
        elements Contract.structures).map Prod.fst).count s = 1 := by
  have h1 : decide (idD = idA) = false := decide_eq_false hDA
  have h2 : decide (idD = idB) = false := decide_eq_false hDB
  have hres : (diamondContract nm s cm idA idB idC idD).available_elements_from_inheritances
      elements Contract.structures = [(s, dlookup elements cm)] := by
    simp [diamondContract, diamondBase, Contract.available_elements_from_inheritances,
      Contract.inheritance_reverse, Contract.inheritance, Contract.structures,
      Contract.id, dictComp, pyUpdate, dinsert, List.contains, h1, h2]
  refine ⟨hres, ?_⟩
  rw [hres]
  simp

/-- Witness for C7 at concrete inputs. -/
theorem c7_witness :
    ((diamondContract "d" "d()" "D.d()" 11 12 13 14).available_elements_from_inheritances
        [("D.d()", ⟨"d", "d()", "D.d()", 14⟩)] Contract.structures
      = [("d()", some ⟨"d", "d()", "D.d()", 14⟩)]) ∧
    (((diamondContract "d" "d()" "D.d()" 11 12 13 14).available_elements_from_inheritances
        [("D.d()", ⟨"d", "d()", "D.d()", 14⟩)] Contract.structures).map Prod.fst).count "d()"
      = 1 := by
  have h := c7_diamond_once "d" "d()" "D.d()" 11 12 13 14
    [("D.d()", ⟨"d", "d()", "D.d()", 14⟩)] (by decide) (by decide)
  exact ⟨by rw [h.1]; rfl, h.2⟩

/-- Helper: successors always stay inside the universe of mentioned call
targets. -/
theorem stepList_subset_universe (M : Model) (s : List Nat) :
    ∀ j ∈ M.stepList s, j ∈ M.universeList := by
  intro j hj
  rw [Model.stepList, List.mem_flatMap] at hj
  obtain ⟨i, -, hj⟩ := hj
  rw [Model.universeList, List.mem_flatMap]
  rw [Model.succsList] at hj
  cases hfind : M.lookupF i with
  | none => rw [hfind] at hj; cases hj
  | some g =>
    rw [hfind] at hj
    rw [Model.lookupF] at hfind
    exact ⟨g, List.mem_of_find?_eq_some hfind, hj⟩

/-- Helper: the saturation only grows the starting set. -/
theorem subset_closureAux (M : Model) :
    ∀ (n : Nat) (s : List Nat), ∀ j ∈ s, j ∈ M.closureAux n s := by
  intro n
  induction n with
  | zero => intro s j hj; exact hj
  | succ n ih =>
    intro s j hj
    rw [Model.closureAux]
    split
    · exact hj
    · exact ih _ j (List.mem_append_left _ hj)

/-- Helper: everything the saturation collects is reachable from the
starting set by zero or more internal-call edges. -/
theorem closureAux_sound (M : Model) :
    ∀ (n : Nat) (s : List Nat), ∀ j ∈ M.closureAux n s,
      ∃ i ∈ s, Relation.ReflTransGen M.rel i j := by
  intro n
  induction n with
  | zero => intro s j hj; exact ⟨j, hj, Relation.ReflTransGen.refl⟩
  | succ n ih =>
    intro s j hj
    rw [Model.closureAux] at hj
    split at hj
    · exact ⟨j, hj, Relation.ReflTransGen.refl⟩
    · obtain ⟨i, hi, hrtg⟩ := ih _ j hj
      rcases List.mem_append.mp hi with hi | hi
      · exact ⟨i, hi, hrtg⟩
      · rw [Model.stepList, List.mem_flatMap] at hi
        obtain ⟨a, ha, hia⟩ := hi
        exact ⟨a, ha, Relation.ReflTransGen.head hia hrtg⟩

/-- Helper: with enough fuel (the missing part of the universe), the
saturation result is closed under one more step. -/
theorem closureAux_closed (M : Model) :
    ∀ (n : Nat) (s : List Nat),
      (M.universeList ++ s).toFinset.card - s.toFinset.card ≤ n →
      ∀ j ∈ M.stepList (M.closureAux n s), j ∈ M.closureAux n s := by
  intro n
  induction n with
  | zero =>
    intro s hcard j hj
    have hsub : s.toFinset ⊆ (M.universeList ++ s).toFinset := by
      intro x hx
      rw [List.toFinset_append]
      exact Finset.mem_union_right _ hx
    have hle : (M.universeList ++ s).toFinset.card ≤ s.toFinset.card := by omega
    have heq : s.toFinset = (M.universeList ++ s).toFinset :=
      Finset.eq_of_subset_of_card_le hsub hle
    have hU : ∀ x ∈ M.universeList, x ∈ s := by
      intro x hx
      have hx2 : x ∈ (M.universeList ++ s).toFinset := by
        rw [List.toFinset_append]
        exact Finset.mem_union_left _ (List.mem_toFinset.mpr hx)
      rw [← heq] at hx2
      exact List.mem_toFinset.mp hx2
    exact hU j (stepList_subset_universe M s j hj)
  | succ n ih =>
    intro s hcard j
    rw [Model.closureAux]
    split
    · rename_i hfix
      intro hj
      have := List.all_eq_true.mp hfix j hj
      simpa [List.elem_iff] using this
    · rename_i hfix
      apply ih
      obtain ⟨j0, hj0, hj0n⟩ : ∃ x ∈ M.stepList s, x ∉ s := by
        by_contra hall
        push_neg at hall
        exact hfix (List.all_eq_true.mpr
          (fun x hx => by simpa [List.elem_iff] using hall x hx))
      have hUeq : (M.universeList ++ (s ++ M.stepList s)).toFinset
          = (M.universeList ++ s).toFinset := by
        ext x
        simp only [List.toFinset_append, Finset.mem_union, List.mem_toFinset]
        constructor
        · rintro (hx | hx | hx)
          · exact Or.inl hx
          · exact Or.inr hx
          · exact Or.inl (stepList_subset_universe M s x hx)
        · rintro (hx | hx)
          · exact Or.inl hx
          · exact Or.inr (Or.inl hx)
      have hss : s.toFinset ⊂ (s ++ M.stepList s).toFinset := by
        constructor
        · intro x hx
          rw [List.toFinset_append]
          exact Finset.mem_union_left _ hx
        · intro hcontra
          exact hj0n (List.mem_toFinset.mp (hcontra (by
            rw [List.toFinset_append]
            exact Finset.mem_union_right _ (List.mem_toFinset.mpr hj0))))
      have hlt : s.toFinset.card < (s ++ M.stepList s).toFinset.card :=
        Finset.card_lt_card hss
      have hle2 : (s ++ M.stepList s).toFinset.card
          ≤ (M.universeList ++ (s ++ M.stepList s)).toFinset.card := by
        apply Finset.card_le_card
        intro x hx
        rw [List.toFinset_append]
        exact Finset.mem_union_right _ hx
      rw [hUeq] at hle2 ⊢
      omega

/-- Helper: the closure is closed under the internal-call step. -/
theorem closure_closed (M : Model) (s : List Nat) :
    ∀ j ∈ M.stepList (M.closure s), j ∈ M.closure s := by
  apply closureAux_closed
  rw [← List.card_toFinset]
  omega

/-- Helper: the closure contains everything reachable from the starting
set. -/
theorem closure_complete (M : Model) (s : List Nat) (i j : Nat) (hi : i ∈ s)
    (h : Relation.ReflTransGen M.rel i j) : j ∈ M.closure s := by
  induction h with
  | refl => exact subset_closureAux M _ s i hi
  | tail hab hbc ih =>
    apply closure_closed M s
    rw [Model.stepList, List.mem_flatMap]
    exact ⟨_, ih, hbc⟩

/-- Helper: membership in the computed closure is exactly reachability by
zero or more internal-call edges from the starting fids. -/
theorem mem_closure_iff (M : Model) (s : List Nat) (j : Nat) :
    j ∈ M.closure s ↔ ∃ i ∈ s, Relation.ReflTransGen M.rel i j := by
  constructor
  · exact closureAux_sound M _ s j
  · rintro ⟨i, hi, h⟩
    exact closure_complete M s i j hi h

/-- Helper: when fids are unique in the arena, looking up a member
function's fid finds that very function. -/
theorem find?_fid_eq (l : List Func) (hnd : (l.map Func.fid).Nodup) (f : Func)
    (hf : f ∈ l) : l.find? (fun g => g.fid == f.fid) = some f := by
  induction l with
  | nil => cases hf
  | cons x xs ih =>
    rcases List.mem_cons.mp hf with rfl | hf'
    · exact List.find?_cons_of_pos xs (by simp)
    · have hne : x.fid ≠ f.fid := by
        intro e
        have hx : x.fid ∉ xs.map Func.fid := (List.nodup_cons.mp (by simpa using hnd)).1
        exact hx (e ▸ List.mem_map_of_mem Func.fid hf')
      rw [List.find?_cons_of_neg xs (by simpa using hne)]
      exact ih (List.nodup_cons.mp (by simpa using hnd)).2 hf'

/-- Helper: for an arena member, the successor list is the function's own
local internal-call edge list. -/
theorem succsList_of_mem (M : Model) (hnd : (M.funcs.map Func.fid).Nodup)
    (f : Func) (hf : f ∈ M.funcs) : M.succsList f.fid = f.internal_calls := by
  rw [Model.succsList, Model.lookupF, find?_fid_eq M.funcs hnd f hf]

/-- Helper: reachability in one or more steps from an arena function is
one local edge followed by zero or more steps. -/
theorem transGen_from_func (M : Model) (hnd : (M.funcs.map Func.fid).Nodup)
    (f : Func) (hf : f ∈ M.funcs) (j : Nat) :
    Relation.TransGen M.rel f.fid j ↔
      ∃ i ∈ f.internal_calls, Relation.ReflTransGen M.rel i j := by
  rw [Relation.TransGen.head'_iff]
  constructor
  · rintro ⟨b, hb, hrtg⟩
    rw [Model.rel, succsList_of_mem M hnd f hf] at hb
    exact ⟨b, hb, hrtg⟩
  · rintro ⟨i, hi, hrtg⟩
    refine ⟨i, ?_, hrtg⟩
    rw [Model.rel, succsList_of_mem M hnd f hf]
    exact hi

/-- Helper: membership in the modelled Function.all_internal_calls. -/
theorem mem_all_internal_calls (M : Model) (f x : Func) :
    x ∈ M.all_internal_calls f ↔
      x ∈ M.funcs ∧ x.fid ∈ M.closure f.internal_calls := by
  rw [Model.all_internal_calls, List.mem_filter]
  simp [List.elem_iff]

/-- C2: all_functions_called terminates by construction (the closure is a
bounded saturation) and a function object belongs to it exactly when it is
an isinstance of Function and is a non-shadowed function or modifier of
the contract, or an arena function reachable from such a member through
one or more internal-call edges, or some ancestor's resolved constructor;
the result list is the deduplicated union of those contributions. -/
theorem c2_all_functions_called_spec (M : Model) (c : Contract)
    (hnd : (M.funcs.map Func.fid).Nodup)
    (hin : ∀ f ∈ c.available_functions_and_modifiers, f ∈ M.funcs) (x : Func) :
    x ∈ Contract.all_functions_called M c ↔
      x.is_function = true ∧
        (x ∈ c.available_functions_and_modifiers ∨
         (∃ f ∈ c.available_functions_and_modifiers, x ∈ M.funcs ∧
            Relation.TransGen M.rel f.fid x.fid) ∨
         (∃ a ∈ c.inheritance, a.constructor = some x)) := by
  have haic : ∀ f ∈ c.available_functions_and_modifiers,
      (x ∈ M.all_internal_calls f ↔
        x ∈ M.funcs ∧ Relation.TransGen M.rel f.fid x.fid) := by
    intro f hf
    rw [mem_all_internal_calls, mem_closure_iff,
      ← transGen_from_func M hnd f (hin f hf) x.fid]
  rw [Contract.all_functions_called]
  simp only [List.mem_filter, List.mem_dedup, List.mem_append, List.mem_flatten,
    List.mem_map, List.mem_filterMap, List.mem_singleton]
  constructor
  · rintro ⟨hcalls, hfn⟩
    refine ⟨hfn, ?_⟩
    rcases hcalls with ⟨L, hL, hxL⟩ | hctor
    · rcases hL with ⟨f, hf, rfl⟩ | rfl
      · exact Or.inr (Or.inl ⟨f, hf, (haic f hf).mp hxL⟩)
      · exact Or.inl hxL
    · obtain ⟨a, ha, hcst⟩ := hctor
      exact Or.inr (Or.inr ⟨a, ha, hcst⟩)
  · rintro ⟨hfn, hmem | ⟨f, hf, hreach⟩ | ⟨a, ha, hcst⟩⟩
    · exact ⟨Or.inl ⟨c.available_functions_and_modifiers, Or.inr rfl, hmem⟩, hfn⟩
    · exact ⟨Or.inl ⟨M.all_internal_calls f, Or.inl ⟨f, hf, rfl⟩,
        (haic f hf).mpr hreach⟩, hfn⟩
    · exact ⟨Or.inr ⟨a, ha, hcst⟩, hfn⟩

/-- First function of the 3-cycle f calls g, g calls h, h calls f. -/
def funcF : Func := ⟨1, "f", "f()", "T.f()", "public", false, false, false, true, 100, [2], []⟩

/-- Second function of the 3-cycle. -/
def funcG : Func := ⟨2, "g", "g()", "T.g()", "public", false, false, false, true, 100, [3], []⟩

/-- Third function of the 3-cycle. -/
def funcH : Func := ⟨3, "h", "h()", "T.h()", "public", false, false, false, true, 100, [1], []⟩

/-- Arena containing exactly the 3-cycle functions. -/
def model3 : Model := ⟨[funcF, funcG, funcH]⟩

/-- Contract owning the 3-cycle functions, with no ancestors. -/
def contractT : Contract := .mk 100 "T" [] [funcF, funcG, funcH] [] [] [] [] []

/-- Witness for C2 on the 3-cycle: the closure terminates with exactly the
three cycle members (no ancestors, hence no constructors), and the main
theorem applies at a concrete member. -/
theorem c2_witness :
    funcG ∈ Contract.all_functions_called model3 contractT ∧
    Contract.all_functions_called model3 contractT = [funcF, funcG, funcH] := by
  constructor
  · exact (c2_all_functions_called_spec model3 contractT (by decide) (by decide)
      funcG).mpr ⟨rfl, Or.inl (by decide)⟩
  · decide

/-- CFG node carrying a delegatecall low-level call. -/
def nodeDelegate : Node := ⟨[Ir.lowLevelCall "delegatecall"], false, none⟩

/-- Fallback function whose body delegatecalls. -/
def funcFallbackProxy : Func :=
  ⟨31, "fallback", "fallback()", "P.fallback()", "external",
    false, false, true, true, 200, [], [nodeDelegate]⟩

/-- Contract with a delegatecalling fallback. -/
def contractProxy : Contract := .mk 200 "P" [] [funcFallbackProxy] [] [] [] [] []

/-- Contract whose only function is not a fallback, though it low-level
calls. -/
def contractNoFallback : Contract :=
  .mk 201 "Q" []
    [⟨32, "f", "f()", "Q.f()", "public", false, false, false, true, 201, [],
      [⟨[Ir.lowLevelCall "call"], false, none⟩]⟩]
    [] [] [] [] []

/-- Contract whose fallback only performs a plain low-level call. -/
def contractPlainFallback : Contract :=
  .mk 202 "R" []
    [⟨33, "fallback", "fallback()", "R.fallback()", "external",
      false, false, true, true, 202, [],
      [⟨[Ir.lowLevelCall "call"], false, none⟩]⟩]
    [] [] [] [] []

/-- Witness for C4: the delegatecalling-fallback contract is flagged, the
plain-call fallback is not, and a fallback-free contract is never
flagged. -/
theorem c4_witness :
    Contract.is_upgradeable_proxy contractProxy = true ∧
    Contract.is_upgradeable_proxy contractPlainFallback = false ∧
    Contract.is_upgradeable_proxy contractNoFallback = false := by
  refine ⟨?_, by decide, ?_⟩
  · exact (c4_is_upgradeable_proxy_spec.1 contractProxy).mpr
      ⟨funcFallbackProxy, by decide, rfl, nodeDelegate, by decide,
        Or.inl ⟨Ir.lowLevelCall "delegatecall", by decide, rfl⟩⟩
  · exact c4_is_upgradeable_proxy_spec.2 contractNoFallback (by decide)

/-- Public function carrying a given full name, for the C5 witness. -/
def mkSigFunc (i : Nat) (fn : String) : Func :=
  ⟨i, fn, fn, fn, "public", false, false, false, true, 300, [], []⟩

/-- Contract exposing exactly the six ERC-20 signatures. -/
def contractERC : Contract :=
  .mk 300 "Tok" []
    [mkSigFunc 41 "transfer(address,uint256)",
     mkSigFunc 42 "transferFrom(address,address,uint256)",
     mkSigFunc 43 "approve(address,uint256)",
     mkSigFunc 44 "totalSupply()",
     mkSigFunc 45 "balanceOf(address)",
     mkSigFunc 46 "allowance(address,address)"]
    [] [] [] [] []

/-- Contract exposing the six ERC-20 signatures minus totalSupply(). -/
def contractERC5 : Contract :=
  .mk 301 "Tok5" []
    [mkSigFunc 41 "transfer(address,uint256)",
     mkSigFunc 42 "transferFrom(address,address,uint256)",
     mkSigFunc 43 "approve(address,uint256)",
     mkSigFunc 45 "balanceOf(address)",
     mkSigFunc 46 "allowance(address,address)"]
    [] [] [] [] []

/-- Witness for C5: the full six-signature contract is an erc20 and a
possible erc20; removing totalSupply() flips is_erc20 to false. -/
theorem c5_witness :
    Contract.is_erc20 contractERC = true ∧
    Contract.is_possible_erc20 contractERC = true ∧
    Contract.is_erc20 contractERC5 = false := by
  refine ⟨(c5_is_erc20_spec.1 contractERC).mpr (by decide),
    (c5_is_erc20_spec.2.2 contractERC).mpr (Or.inl (by decide)),
    c5_is_erc20_spec.2.1 contractERC5 "totalSupply()" (by decide) (by decide)⟩

/-- Witness for C10: two distinct contract objects named X both compare
equal to the string X. -/
theorem c10_witness :
    (Contract.eqPy (Contract.mk 1 "X" [] [] [] [] [] [] []) (PyOperand.strVal "X")
        = some true ↔
      Contract.eqPy (Contract.mk 2 "X" [] [] [] [] [] [] []) (PyOperand.strVal "X")
        = some true) ∧
    Contract.eqPy (Contract.mk 1 "X" [] [] [] [] [] [] []) (PyOperand.strVal "X")
      = some true := by
  refine ⟨(c10_eq_str_spec (Contract.mk 1 "X" [] [] [] [] [] [] []) "X").2.2.2.2
      (Contract.mk 1 "X" [] [] [] [] [] [] []) (Contract.mk 2 "X" [] [] [] [] [] [] [])
      (by decide) rfl, ?_⟩
  exact ((c10_eq_str_spec (Contract.mk 1 "X" [] [] [] [] [] [] []) "X").1).mpr rfl

/-- Witness for C6: on a concrete empty contract every lookup misses and
returns none. -/
theorem c6_witness :
    Contract.get_function_from_signature contractN "nope()" = none ∧
    Contract.get_enum_from_name contractN "E" = none := by
  refine ⟨((c6_lookups_none_iff_no_match contractN "nope()").1).mpr ?_, ?_⟩
  · simp [contractN, Contract.functions]
  · exact ((c6_lookups_none_iff_no_match contractN "E").2.2.2.2.2.2.2.2.2.2.1).mpr
      (by simp [contractN, Contract.enums])

/-- Witness for C8: a concrete public non-shadowed function is an entry
point and hence also a function of the contract. -/
theorem c8_witness :
    funcFA ∈ (Contract.mk 5 "E" [] [funcFA, funcFBsh] [] [] [] [] []).functions_entry_points ∧
    funcFA ∈ (Contract.mk 5 "E" [] [funcFA, funcFBsh] [] [] [] [] []).functions := by
  have h := ((c8_entry_points_spec
      (Contract.mk 5 "E" [] [funcFA, funcFBsh] [] [] [] [] [])).2 funcFA).mpr
    ⟨by decide, Or.inl rfl, rfl⟩
  exact ⟨h, (c8_entry_points_spec
    (Contract.mk 5 "E" [] [funcFA, funcFBsh] [] [] [] [] [])).1 funcFA h⟩

end Slither
